import Mathlib

/-!
Shallow embedding of the Skull King rules engine
(`cards.py`, `game_engine.py`) and verification of its specification.

Players are identified by `Nat` ids; Python dictionaries keyed by players
become association lists or index-based lists; methods that raise become
`Option`-valued functions.
-/

set_option maxHeartbeats 1000000

namespace SkullKing

/-- `Suit` enum from `cards.py`. -/
inductive Suit
  | red
  | yellow
  | blue
  | green
  | special
deriving DecidableEq, Repr

/-- `CardType` enum from `cards.py`. -/
inductive CardType
  | number
  | escape
  | pirate
  | mermaid
  | skullKing
  | tigress
  | jollyRoger
deriving DecidableEq, Repr

/-- A card, as produced by the validating `Card.__init__`: a Number card
carries a real suit and a value, the five special kinds carry no payload
(their `suit` is forced to `SPECIAL`, `value` to `None`), and a Jolly Roger
card carries its value. -/
inductive Card
  | number (suit : Suit) (value : Nat)
  | escape
  | pirate
  | mermaid
  | skullKing
  | tigress
  | jollyRoger (value : Nat)
deriving DecidableEq, Repr

/-- The `card_type` field. -/
def Card.card_type : Card → CardType
  | .number _ _ => .number
  | .escape => .escape
  | .pirate => .pirate
  | .mermaid => .mermaid
  | .skullKing => .skullKing
  | .tigress => .tigress
  | .jollyRoger _ => .jollyRoger

/-- The `suit` field (`Optional[Suit]` in the source; the constructor sets
it to `SPECIAL` for the five special kinds). -/
def Card.suit : Card → Option Suit
  | .number s _ => some s
  | .escape => some .special
  | .pirate => some .special
  | .mermaid => some .special
  | .skullKing => some .special
  | .tigress => some .special
  | .jollyRoger _ => none

/-- The `value` field. -/
def Card.value : Card → Option Nat
  | .number _ v => some v
  | .jollyRoger v => some v
  | _ => none

/-- The constructor's validation: a Number card has a non-special suit and a
value in `[1, 13]`. -/
def Card.wellFormed : Card → Bool
  | .number s v => decide (s ≠ Suit.special ∧ 1 ≤ v ∧ v ≤ 13)
  | _ => true

/-- `can_follow_suit` from `cards.py`. -/
def Card.can_follow_suit (c : Card) (led_suit : Suit) : Bool :=
  if c.card_type = CardType.escape ∨ c.card_type = CardType.pirate ∨
     c.card_type = CardType.mermaid ∨ c.card_type = CardType.skullKing ∨
     c.card_type = CardType.tigress then
    true
  else
    decide (c.suit = some led_suit)

/-- The `special_hierarchy` dict inside `Card.beats`. -/
def specialHierarchy : Card → Option Nat
  | .skullKing => some 3
  | .mermaid => some 4
  | .pirate => some 5
  | _ => none

/-- The tail of the numbered-card comparison in `Card.beats`: same suit
compares values, otherwise only the led suit matters, and a pair matching
neither the same suit nor the led suit loses (defensive fallback). -/
def numberCompareLed (s1 : Suit) (v1 : Nat) (s2 : Suit) (v2 : Nat)
    (led_suit : Option Suit) : Bool :=
  if s1 = s2 then decide (v1 > v2)
  else if some s1 = led_suit then true
  else if some s2 = led_suit then false
  else false

/-- The numbered-card branch of `Card.beats`, including the trump logic. -/
def numberBeats (s1 : Suit) (v1 : Nat) (s2 : Suit) (v2 : Nat)
    (led_suit : Option Suit) (trump_suit : Option Suit) : Bool :=
  match trump_suit with
  | some t =>
    if s1 = t ∧ s2 ≠ t then true
    else if s2 = t ∧ s1 ≠ t then false
    else if s1 = t ∧ s2 = t then decide (v1 > v2)
    else numberCompareLed s1 v1 s2 v2 led_suit
  | none => numberCompareLed s1 v1 s2 v2 led_suit

/-- `Card.beats` from `cards.py`.  The led suit is `Option Suit` because the
caller (`Trick.determine_winner`) passes the trick's `Optional` led suit. -/
def Card.beats (self other : Card) (led_suit : Option Suit)
    (trump_suit : Option Suit) : Bool :=
  if self.card_type = CardType.escape then false
  else if other.card_type = CardType.escape then true
  else
    match specialHierarchy self, specialHierarchy other with
    | some a, some b => decide (a > b)
    | some _, none => true
    | none, some _ => false
    | none, none =>
      match self, other with
      | Card.number s1 v1, Card.number s2 v2 =>
        numberBeats s1 v1 s2 v2 led_suit trump_suit
      | _, _ => false

/-- `Trick` from `game_engine.py` (players are `Nat` ids). -/
structure Trick where
  round_num : Nat
  trick_num : Nat
  trump_suit : Option Suit
  cards_played : List (Nat × Card)
  led_suit : Option Suit
deriving DecidableEq, Repr

/-- `Trick.play_card`: the first play sets the led suit (the card's suit for
a Number card, the `SPECIAL` marker otherwise); every play is appended. -/
def Trick.play_card (t : Trick) (p : Nat) (c : Card) : Trick :=
  if t.cards_played.isEmpty then
    { t with
      led_suit := if c.card_type = CardType.number then c.suit
                  else some Suit.special,
      cards_played := [(p, c)] }
  else
    { t with cards_played := t.cards_played ++ [(p, c)] }

/-- One step of the fold inside `Trick.determine_winner`. -/
def trickStep (led_suit trump_suit : Option Suit) (w pc : Nat × Card) :
    Nat × Card :=
  if pc.2.beats w.2 led_suit trump_suit then pc else w

/-- `Trick.determine_winner`: start from the first play and replace the
candidate whenever a later card beats it; `none` on an empty trick. -/
def Trick.determine_winner (t : Trick) : Option Nat :=
  match t.cards_played with
  | [] => none
  | first :: rest =>
    some ((rest.foldl (trickStep t.led_suit t.trump_suit) first).1)

/-- `GameState.get_legal_cards`, as a function of the hand and the current
trick. -/
def get_legal_cards (hand : List Card) (current_trick : Option Trick) :
    List Card :=
  match current_trick with
  | none => hand
  | some t =>
    if t.cards_played.isEmpty then hand
    else
      match t.led_suit with
      | some led =>
        if led ≠ Suit.special then
          if (hand.filter (fun c =>
              decide (c.card_type = CardType.number ∧
                c.suit = some led))).isEmpty
          then hand
          else hand.filter (fun c =>
            decide (c.card_type = CardType.number ∧ c.suit = some led))
        else hand
      | none => hand

/-- The per-player body of `SkullKingGame.calculate_scores`: the generic
formula is computed first and the zero-bid clause then overwrites it. -/
def calculate_score (bid tricks_won round_num : Nat) : Int :=
  let score : Int :=
    if bid = tricks_won then (bid : Int) * 20 + 10
    else -10 * ((bid : Int) - (tricks_won : Int)).natAbs
  if bid = 0 then
    if tricks_won = 0 then 10 * (round_num : Int)
    else -10 * (round_num : Int)
  else score

/-- `any(card.card_type == CardType.SKULL_KING ...)` in
`check_special_bonuses`. -/
def skullKingPlayed (t : Trick) : Bool :=
  t.cards_played.any (fun pc => pc.2.card_type = CardType.skullKing)

/-- `next(card for player, card in trick.cards_played if player == winner)`:
the first card the winner played in the trick. -/
def winnerCard (t : Trick) (w : Nat) : Option Card :=
  (t.cards_played.find? (fun pc => pc.1 = w)).map Prod.snd

/-- The bonus one trick contributes to one player in
`SkullKingGame.check_special_bonuses`. -/
def trickBonus (t : Trick) (p : Nat) : Int :=
  if skullKingPlayed t then
    match t.determine_winner with
    | some w =>
      match winnerCard t w with
      | some c =>
        if c.card_type = CardType.mermaid then (if p = w then 100 else 0)
        else if c.card_type = CardType.pirate then (if p = w then 50 else 0)
        else 0
      | none => 0
    | none => 0
  else 0

/-- `SkullKingGame.check_special_bonuses`: fold over the round's completed
tricks, accumulating each trick's bonus for the player. -/
def check_special_bonuses (tricks : List Trick) (p : Nat) : Int :=
  tricks.foldl (fun acc t => acc + trickBonus t p) 0

/-- The pairs of cards on which `beats` is false in both directions (with
no trump): two Escapes, a Tigress or Jolly Roger compared with a Number
card or with each other, and two Number cards of different suits neither
of which is the led suit. -/
def noComparison (A B : Card) (led : Suit) : Bool :=
  match A, B with
  | .escape, .escape => true
  | .number s1 _, .number s2 _ => decide (s1 ≠ s2 ∧ s1 ≠ led ∧ s2 ≠ led)
  | .tigress, .number _ _ => true
  | .number _ _, .tigress => true
  | .tigress, .tigress => true
  | .tigress, .jollyRoger _ => true
  | .jollyRoger _, .tigress => true
  | .jollyRoger _, .number _ _ => true
  | .number _ _, .jollyRoger _ => true
  | .jollyRoger _, .jollyRoger _ => true
  | _, _ => false

/-- A card of one of the five suitless special kinds. -/
def isSpecialType (c : Card) : Bool :=
  decide (c.card_type = CardType.escape ∨ c.card_type = CardType.pirate ∨
    c.card_type = CardType.mermaid ∨ c.card_type = CardType.skullKing ∨
    c.card_type = CardType.tigress)

/-- The must-follow-suit condition inside `get_legal_cards`: there is a
current trick with at least one play, its led suit is a real suit, and the
hand holds a Number card of that suit. -/
def mustFollow (hand : List Card) (current_trick : Option Trick) : Bool :=
  match current_trick with
  | none => false
  | some t =>
    if t.cards_played.isEmpty then false
    else
      match t.led_suit with
      | some led =>
        if led ≠ Suit.special then
          !(hand.filter (fun c =>
            decide (c.card_type = CardType.number ∧ c.suit = some led))).isEmpty
        else false
      | none => false

/-- `SkullKingGame.collect_bids`, player by player: each in-range bid is
recorded into `state.bids` before the next player is asked; an
out-of-range bid raises `ValueError`, leaving the bids recorded so far in
place.  Returns the final bids map together with `some` error when it
raised. -/
def collect_bids (bidOf : Nat → Int) (round_num : Nat) :
    List Nat → List (Nat × Int) → List (Nat × Int) × Option String
  | [], bids => (bids, none)
  | p :: rest, bids =>
    let b := bidOf p
    if b < 0 ∨ b > (round_num : Int) then (bids, some "Invalid bid")
    else collect_bids bidOf round_num rest (bids ++ [(p, b)])

/-- The bonus rule as the specification words it: for a trick in which a
Skull King was played, the resolved winner gains 100 if the card the
winner played is a Mermaid and 50 if it is a Pirate; nothing otherwise. -/
def specBonusOfTrick (t : Trick) (p : Nat) : Int :=
  match t.determine_winner with
  | some w =>
    if skullKingPlayed t = true ∧ p = w then
      match winnerCard t w with
      | some Card.mermaid => 100
      | some Card.pirate => 50
      | _ => 0
    else 0
  | none => 0

/-- Building a trick by playing a list of cards in order into a fresh
trick, exactly as the engine's trick loop does. -/
def mkTrick (round_num trick_num : Nat) (trump : Option Suit)
    (plays : List (Nat × Card)) : Trick :=
  plays.foldl (fun t pc => t.play_card pc.1 pc.2)
    { round_num := round_num, trick_num := trick_num, trump_suit := trump,
      cards_played := [], led_suit := none }

/-! ### Round state (`SkullKingGame` / `GameState`) -/

/-- The per-round state: the remaining deck (owned by the game object),
per-player hands indexed by player id, bids, tricks-won tally, completed
tricks and the current trick. -/
structure RoundState where
  num_players : Nat
  round_num : Nat
  deck : List Card
  hands : List (List Card)
  bids : List (Nat × Int)
  tricks_won : Nat → Nat
  tricks : List Trick
  current_trick : Option Trick
  trump_suit : Option Suit

instance : Inhabited RoundState :=
  ⟨{ num_players := 0, round_num := 0, deck := [], hands := [], bids := [],
     tricks_won := fun _ => 0, tricks := [], current_trick := none,
     trump_suit := none }⟩

/-- `Deck.deal`: removes and returns the first `n` cards; fails when `n`
exceeds the remaining count. -/
def deal (deck : List Card) (n : Nat) : Option (List Card × List Card) :=
  if n > deck.length then none
  else some (deck.take n, deck.drop n)

/-- Dealing `n` cards to each of `k` players in turn, as the dealing loop
of `start_round` does. -/
def dealHands (deck : List Card) (n : Nat) :
    Nat → Option (List (List Card) × List Card)
  | 0 => some ([], deck)
  | Nat.succ k =>
    match deal deck n with
    | none => none
    | some (h, rest) =>
      match dealHands rest n k with
      | none => none
      | some (hs, rest2) => some (h :: hs, rest2)

/-- The standard 63-card deck built by `Deck._create_deck`. -/
def standardDeck : List Card :=
  (([Suit.red, Suit.yellow, Suit.blue, Suit.green].map
      (fun s => (List.range 13).map (fun i => Card.number s (i + 1)))).flatten)
    ++ List.replicate 5 Card.escape
    ++ List.replicate 2 Card.mermaid
    ++ List.replicate 2 Card.pirate
    ++ [Card.skullKing]
    ++ [Card.tigress]

/-- `SkullKingGame.start_round` on an already-shuffled deck: deal
`round_num` cards to each player and reset the per-round state. -/
def start_round (np round_num : Nat) (deck : List Card) :
    Option RoundState :=
  match dealHands deck round_num np with
  | none => none
  | some (hs, rest) =>
    some { num_players := np, round_num := round_num, deck := rest,
           hands := hs, bids := [], tricks_won := fun _ => 0, tricks := [],
           current_trick := none, trump_suit := none }

/-- `SkullKingGame.start_trick`: installs a fresh current trick. -/
def RoundState.start_trick (s : RoundState) : RoundState :=
  { s with current_trick := some (Trick.mk s.round_num (s.tricks.length + 1)
      s.trump_suit [] none) }

/-- The winner-update block of `play_card`: if the completed trick has a
winner, increment that player's tally. -/
def updatedTricksWon (s : RoundState) (t2 : Trick) : Nat → Nat :=
  match t2.determine_winner with
  | some w => fun q => if q = w then s.tricks_won q + 1 else s.tricks_won q
  | none => s.tricks_won

/-- `SkullKingGame.play_card`: validates legality, removes the card from
the hand, records it in the current trick, and on trick completion
resolves the winner, archives the trick and clears the current-trick
slot.  `none` models the raised exceptions. -/
def RoundState.play_card (s : RoundState) (p : Nat) (c : Card) :
    Option RoundState :=
  match s.current_trick with
  | none => none
  | some t =>
    match s.hands.get? p with
    | none => none
    | some hand =>
      if c ∈ get_legal_cards hand s.current_trick then
        if (t.play_card p c).cards_played.length = s.num_players then
          some { s with
            hands := s.hands.set p (hand.erase c)
            tricks_won := updatedTricksWon s (t.play_card p c)
            tricks := s.tricks ++ [t.play_card p c]
            current_trick := none }
        else
          some { s with
            hands := s.hands.set p (hand.erase c)
            current_trick := some (t.play_card p c) }
      else none

/-- Number of cards in the current trick slot. -/
def currentTrickCount : Option Trick → Nat
  | none => 0
  | some t => t.cards_played.length

/-- Total number of cards in all hands, all completed tricks, the current
trick, and the remaining deck. -/
def RoundState.totalCards (s : RoundState) : Nat :=
  (s.hands.map List.length).sum
    + (s.tricks.map (fun t => t.cards_played.length)).sum
    + currentTrickCount s.current_trick
    + s.deck.length

/-- The round states reachable through the engine's round lifecycle: a
round started on a shuffled standard deck, with tricks started only while
no trick is in progress, and successful `play_card` steps. -/
inductive Reachable : RoundState → Prop
  | start (np rn : Nat) (deck : List Card) (s : RoundState) :
      deck.Perm standardDeck → start_round np rn deck = some s →
      Reachable s
  | trick (s : RoundState) : Reachable s → s.current_trick = none →
      Reachable s.start_trick
  | play (s : RoundState) (p : Nat) (c : Card) (s2 : RoundState) :
      Reachable s → s.play_card p c = some s2 → Reachable s2

/-- The cards that can ever hold the winning-candidate slot in a trick led
by a Number card of suit `led`: led-suit Number cards and the three ranked
specials. -/
def isCandidate (led : Suit) : Card → Bool
  | .number s _ => decide (s = led)
  | .skullKing => true
  | .mermaid => true
  | .pirate => true
  | _ => false

/-- A numeric strength aligning `beats` on candidates: led-suit Number
cards by value (at most 13), then Skull King < Mermaid < Pirate. -/
def strength : Card → Nat
  | .number _ v => v
  | .skullKing => 14
  | .mermaid => 15
  | .pirate => 16
  | _ => 0

/-- The candidate cards among a trick's plays. -/
def candCards (led : Suit) (plays : List (Nat × Card)) : List Card :=
  (plays.map Prod.snd).filter (fun c => isCandidate led c)

/-! ### Basic facts about `beats` -/

/-- An Escape card (identified by its `card_type`) is the Escape card. -/
theorem card_eq_escape (c : Card) (h : c.card_type = CardType.escape) :
    c = Card.escape := by
  cases c <;> simp [Card.card_type] at h ⊢

/-- The first branch of `beats`: an Escape never beats anything. -/
theorem escape_never_beats (x : Card) (led trump : Option Suit) :
    Card.escape.beats x led trump = false := rfl

/-- Folding the winner-update step over plays that are all Escapes leaves
the candidate unchanged. -/
theorem foldl_trickStep_escapes (led trump : Option Suit) (w : Nat × Card)
    (l : List (Nat × Card)) (h : ∀ pc ∈ l, pc.2.card_type = CardType.escape) :
    l.foldl (trickStep led trump) w = w := by
  induction l generalizing w with
  | nil => rfl
  | cons a l ih =>
    have ha : a.2 = Card.escape := card_eq_escape _ (h a (by simp))
    have hstep : trickStep led trump w a = w := by
      simp [trickStep, ha, escape_never_beats]
    rw [List.foldl_cons, hstep]
    exact ih w (fun pc hpc => h pc (List.mem_cons_of_mem _ hpc))

/-- C6: under `beats` (any led suit, no trump): Mermaid beats Skull King,
Pirate beats Mermaid, Pirate beats Skull King, Skull King beats every
Number card and every Jolly Roger card, Escape beats no card, and every
non-Escape card beats Escape. -/
theorem beats_hierarchy (led s : Suit) (v : Nat) (c : Card) :
    Card.mermaid.beats Card.skullKing (some led) none = true ∧
    Card.pirate.beats Card.mermaid (some led) none = true ∧
    Card.pirate.beats Card.skullKing (some led) none = true ∧
    Card.skullKing.beats (Card.number s v) (some led) none = true ∧
    Card.skullKing.beats (Card.jollyRoger v) (some led) none = true ∧
    Card.escape.beats c (some led) none = false ∧
    (c.card_type ≠ CardType.escape → c.beats Card.escape (some led) none = true) := by
  refine ⟨rfl, rfl, rfl, rfl, rfl, rfl, ?_⟩
  intro h
  cases c
  case escape => exact absurd rfl h
  all_goals rfl

/-- C6 witness: the hierarchy facts instantiated at a concrete led suit,
number card and non-Escape card. -/
theorem beats_hierarchy_witness :
    Card.pirate.beats Card.escape (some Suit.red) none = true :=
  (beats_hierarchy Suit.red Suit.blue 7 Card.pirate).2.2.2.2.2.2 (by decide)

/-- C4: the per-player round score is `bid*20+10` on a correct positive
bid, `10*round_num` on a correct zero bid, `-10*round_num` on a failed zero
bid, and `-10*|bid - tricks_won|` on a failed positive bid; in particular
(3,3) scores 70, (0,0,r=5) scores 50, (0,2,r=5) scores -50 and (4,1)
scores -30. -/
theorem calculate_score_spec (b t r : Nat) :
    (b = t → 0 < b → calculate_score b t r = (b : Int) * 20 + 10) ∧
    (b = t → b = 0 → calculate_score b t r = 10 * (r : Int)) ∧
    (b = 0 → t ≠ 0 → calculate_score b t r = -10 * (r : Int)) ∧
    (b ≠ t → 0 < b → calculate_score b t r = -10 * ((b : Int) - (t : Int)).natAbs) ∧
    calculate_score 3 3 r = 70 ∧ calculate_score 0 0 5 = 50 ∧
    calculate_score 0 2 5 = -50 ∧ calculate_score 4 1 r = -30 := by
  unfold calculate_score
  refine ⟨?_, ?_, ?_, ?_, ?_, ?_, ?_, ?_⟩ <;> intros <;> split_ifs <;>
    simp_all

/-- C4 witness: the scoring clauses applied at concrete inputs. -/
theorem calculate_score_spec_witness :
    calculate_score 2 2 7 = (2 : Int) * 20 + 10 ∧
    calculate_score 0 3 4 = -10 * (4 : Int) :=
  ⟨(calculate_score_spec 2 2 7).1 rfl (by decide),
   (calculate_score_spec 0 3 4).2.2.1 rfl (by decide)⟩

/-- C10: a non-empty trick whose plays are all Escapes is won by the player
of the first play, and `determine_winner` of an empty trick is `none`. -/
theorem determine_winner_escapes_and_empty (t : Trick) :
    (∀ p c rest, t.cards_played = (p, c) :: rest →
      (∀ pc ∈ t.cards_played, pc.2.card_type = CardType.escape) →
      t.determine_winner = some p) ∧
    (t.cards_played = [] → t.determine_winner = none) := by
  constructor
  · intro p c rest hcp hall
    unfold Trick.determine_winner
    rw [hcp]
    simp only
    rw [foldl_trickStep_escapes _ _ _ _
      (fun pc hpc => hall pc (by rw [hcp]; exact List.mem_cons_of_mem _ hpc))]
  · intro h
    unfold Trick.determine_winner
    rw [h]

/-! ### C1: `beats` compares at most one way, and exactly one way outside
the degenerate pairs -/

/-- Asymmetry of the numbered-card comparison tail. -/
theorem numberCompareLed_asymm (s1 : Suit) (v1 : Nat) (s2 : Suit) (v2 : Nat)
    (led : Option Suit) (h : numberCompareLed s1 v1 s2 v2 led = true) :
    numberCompareLed s2 v2 s1 v1 led = false := by
  unfold numberCompareLed at h ⊢
  by_cases h12 : s1 = s2
  · subst h12
    rw [if_pos rfl] at h ⊢
    simp only [decide_eq_true_eq] at h
    simp only [decide_eq_false_iff_not]
    omega
  · rw [if_neg h12] at h
    rw [if_neg (fun hh => h12 hh.symm)]
    by_cases hl1 : some s1 = led
    · by_cases hl2 : some s2 = led
      · exact absurd (Option.some.inj (hl1.trans hl2.symm)) h12
      · rw [if_neg hl2, if_pos hl1]
    · rw [if_neg hl1] at h
      by_cases hl2 : some s2 = led
      · rw [if_pos hl2] at h
        exact absurd h (by decide)
      · rw [if_neg hl2] at h
        exact absurd h (by decide)

/-- `beats` (with no trump) is asymmetric: if `A` beats `B` then `B` does
not beat `A`. -/
theorem beats_asymm (A B : Card) (led : Option Suit)
    (h : A.beats B led none = true) : B.beats A led none = false := by
  cases A <;> cases B <;>
    first
    | rfl
    | exact (Bool.false_ne_true h).elim
    | exact numberCompareLed_asymm _ _ _ _ _ h

/-- Totality of the numbered-card comparison tail outside the
no-comparison pairs. -/
theorem numberCompareLed_total (s1 : Suit) (v1 : Nat) (s2 : Suit) (v2 : Nat)
    (led : Suit) (h : ¬(s1 = s2 ∧ v1 = v2)) :
    (numberCompareLed s1 v1 s2 v2 (some led) = true ∨
      numberCompareLed s2 v2 s1 v1 (some led) = true)
      ↔ decide (s1 ≠ s2 ∧ s1 ≠ led ∧ s2 ≠ led) = false := by
  unfold numberCompareLed
  by_cases h12 : s1 = s2
  · have hv : v1 ≠ v2 := fun hveq => h ⟨h12, hveq⟩
    subst h12
    rw [if_pos rfl, if_pos rfl]
    simp only [decide_eq_true_eq]
    constructor
    · intro _
      simp
    · intro _
      omega
  · by_cases hl1 : s1 = led
    · by_cases hl2 : s2 = led
      · exact absurd (hl1.trans hl2.symm) h12
      · simp [h12, Ne.symm h12, hl1, hl2, Ne.symm hl2]
    · by_cases hl2 : s2 = led
      · simp [h12, Ne.symm h12, hl1, Ne.symm hl1, hl2]
      · simp [h12, Ne.symm h12, hl1, Ne.symm hl1, hl2, Ne.symm hl2]

/-- One of the two `beats` directions holds exactly outside the
no-comparison pairs. -/
theorem beats_total (A B : Card) (led : Suit) (hAB : A ≠ B) :
    (A.beats B (some led) none = true ∨ B.beats A (some led) none = true)
      ↔ noComparison A B led = false := by
  cases A <;> cases B <;>
    first
    | exact absurd rfl hAB
    | exact numberCompareLed_total _ _ _ _ _
        (fun hc => hAB (by rw [hc.1, hc.2]))
    | simp [Card.beats, Card.card_type, specialHierarchy, numberBeats,
        noComparison]

/-- C1 (amended): for distinct cards `A`, `B` and a led suit, with no
trump, `A.beats B` and `B.beats A` are never both true, and exactly one of
them is true unless the pair is one of the no-comparison pairs (both
Escape; a Tigress or Jolly Roger against a Number card or against each
other; two Number cards of different suits neither matching the led suit),
in which case both are false. -/
theorem beats_exactly_one (A B : Card) (led : Suit) (hAB : A ≠ B) :
    ¬(A.beats B (some led) none = true ∧ B.beats A (some led) none = true) ∧
    ((A.beats B (some led) none = true ∨ B.beats A (some led) none = true)
      ↔ noComparison A B led = false) := by
  refine ⟨?_, beats_total A B led hAB⟩
  rintro ⟨h1, h2⟩
  rw [beats_asymm A B (some led) h1] at h2
  exact Bool.false_ne_true h2

/-- C1 witness: the dichotomy applied to Mermaid versus Skull King. -/
theorem beats_exactly_one_witness :
    ¬(Card.mermaid.beats Card.skullKing (some Suit.red) none = true ∧
      Card.skullKing.beats Card.mermaid (some Suit.red) none = true) ∧
    ((Card.mermaid.beats Card.skullKing (some Suit.red) none = true ∨
      Card.skullKing.beats Card.mermaid (some Suit.red) none = true)
      ↔ noComparison Card.mermaid Card.skullKing Suit.red = false) :=
  beats_exactly_one Card.mermaid Card.skullKing Suit.red (by decide)

/-- C1 counterexample: Tigress and the Red 5 are distinct and neither is
an Escape, yet `beats` is false in both directions, so "exactly one"
fails. -/
theorem beats_exactly_one_cex :
    Card.tigress ≠ Card.number Suit.red 5 ∧
    ¬(Card.tigress.card_type = CardType.escape ∧
      (Card.number Suit.red 5).card_type = CardType.escape) ∧
    Card.tigress.beats (Card.number Suit.red 5) (some Suit.red) none = false ∧
    (Card.number Suit.red 5).beats Card.tigress (some Suit.red) none = false := by
  decide

/-! ### C2 / C7: the legal-move set -/

/-- A non-empty led-suit filter yields a led-suit Number card in hand. -/
theorem filter_isEmpty_false_exists (hand : List Card) (led : Suit)
    (hF : (hand.filter (fun c =>
      decide (c.card_type = CardType.number ∧
        c.suit = some led))).isEmpty = false) :
    ∃ x ∈ hand, x.card_type = CardType.number ∧ x.suit = some led := by
  obtain ⟨x, hx⟩ := List.exists_mem_of_ne_nil _ (List.isEmpty_eq_false.mp hF)
  have h2 := List.mem_filter.mp hx
  exact ⟨x, h2.1, by simpa using h2.2⟩

/-- An empty led-suit filter means no led-suit Number card is in hand. -/
theorem filter_isEmpty_true_forall (hand : List Card) (led : Suit)
    (hF : (hand.filter (fun c =>
      decide (c.card_type = CardType.number ∧
        c.suit = some led))).isEmpty = true) :
    ∀ a ∈ hand, a.card_type = CardType.number → ¬ a.suit = some led := by
  intro a ha hat has
  have hmem : a ∈ hand.filter (fun c =>
      decide (c.card_type = CardType.number ∧ c.suit = some led)) :=
    List.mem_filter.mpr ⟨ha, by simp [hat, has]⟩
  rw [List.isEmpty_iff.mp hF] at hmem
  simp at hmem

/-- C2 (amended): a special card (Escape, Pirate, Mermaid, Skull King or
Tigress) held in the hand is in the legal-move set exactly when the
must-follow-suit condition does not fire, i.e. when there is no trick in
progress, or no card has been played yet, or the led suit is Special, or
the hand holds no Number card of the led suit.  When the hand does hold a
Number card of a real led suit, the legal set is the led-suit Number cards
only and the special card is excluded. -/
theorem special_in_legal_iff (hand : List Card) (ct : Option Trick) (c : Card)
    (hc : c ∈ hand) (hs : isSpecialType c = true) :
    c ∈ get_legal_cards hand ct ↔ mustFollow hand ct = false := by
  have hnum : c.card_type ≠ CardType.number := by
    cases c <;> simp [isSpecialType, Card.card_type] at hs ⊢
  cases ct with
  | none => simp [get_legal_cards, mustFollow, hc]
  | some t =>
    rcases hE : t.cards_played.isEmpty with _ | _
    · rcases hled : t.led_suit with _ | led
      · simp [get_legal_cards, mustFollow, hE, hled, hc]
      · by_cases hsp : led = Suit.special
        · subst hsp
          simp [get_legal_cards, mustFollow, hE, hled, hc]
        · rcases hF : (hand.filter (fun x =>
              decide (x.card_type = CardType.number ∧
                x.suit = some led))).isEmpty with _ | _
          · have hF2 : ∃ x ∈ hand, x.card_type = CardType.number ∧
                x.suit = some led := by
              simpa using hF
            have hF3 : ¬(∀ a ∈ hand, a.card_type = CardType.number →
                ¬ a.suit = some led) := by
              push_neg
              exact hF2
            have hleg : get_legal_cards hand (some t) = hand.filter (fun x =>
                decide (x.card_type = CardType.number ∧
                  x.suit = some led)) := by
              simp [get_legal_cards, hE, hled, hsp, hF3]
            have hmf : mustFollow hand (some t) = true := by
              simp [mustFollow, hE, hled, hsp, hF3]
            rw [hleg, hmf]
            constructor
            · intro hmem
              have h2 := (List.mem_filter.mp hmem).2
              simp only [decide_eq_true_eq] at h2
              exact absurd h2.1 hnum
            · intro h
              exact absurd h (by decide)
          · have hFq : ∀ a ∈ hand, a.card_type = CardType.number →
                ¬ a.suit = some led := by
              simpa using hF
            have hleg : get_legal_cards hand (some t) = hand := by
              simp [get_legal_cards, hE, hled, hsp]
              intro x hx hxt hxs
              exact absurd hxs (hFq x hx hxt)
            have hmf : mustFollow hand (some t) = false := by
              simp [mustFollow, hE, hled, hsp]
              exact hFq
            rw [hleg, hmf]
            simp [hc]
    · simp [get_legal_cards, mustFollow, hE, hc]

/-- C2 witness: with no led-suit Number card in hand, a held Escape is
legal. -/
theorem special_in_legal_witness :
    Card.escape ∈ get_legal_cards [Card.number Suit.blue 3, Card.escape]
      (some (Trick.mk 3 1 none [(0, Card.number Suit.red 3)]
        (some Suit.red))) :=
  (special_in_legal_iff _ _ _ (by decide) (by decide)).mpr (by decide)

/-- C2 counterexample: with a Red Number card in hand and Red led, the held
Escape is not in the legal-move set. -/
theorem special_in_legal_cex :
    Card.escape ∈ [Card.number Suit.red 5, Card.escape] ∧
    Card.escape ∉ get_legal_cards [Card.number Suit.red 5, Card.escape]
      (some (Trick.mk 3 1 none [(0, Card.number Suit.red 3)]
        (some Suit.red))) := by
  decide

/-- C7 (amended): when a real suit is led, the legal set is exactly the
hand's led-suit Number cards when there are any and the whole hand
otherwise; it is always a non-empty subset of a non-empty hand.  In the
worked example, hand `[Red-5, Blue-3, Escape]` yields `{Red-5}` under a
Red lead and `{Blue-3}` (not the whole hand) under a Blue lead. -/
theorem get_legal_cards_follow (hand : List Card) (t : Trick) (led : Suit)
    (hne : t.cards_played ≠ []) (hled : t.led_suit = some led)
    (hreal : led ≠ Suit.special) :
    (get_legal_cards hand (some t) =
      if (hand.filter (fun c =>
            decide (c.card_type = CardType.number ∧
              c.suit = some led))).isEmpty
      then hand
      else hand.filter (fun c =>
            decide (c.card_type = CardType.number ∧ c.suit = some led))) ∧
    (hand ≠ [] → get_legal_cards hand (some t) ≠ [] ∧
      ∀ c ∈ get_legal_cards hand (some t), c ∈ hand) ∧
    get_legal_cards [Card.number Suit.red 5, Card.number Suit.blue 3,
        Card.escape]
      (some (Trick.mk 1 1 none [(9, Card.number Suit.red 1)]
        (some Suit.red))) = [Card.number Suit.red 5] ∧
    get_legal_cards [Card.number Suit.red 5, Card.number Suit.blue 3,
        Card.escape]
      (some (Trick.mk 1 1 none [(9, Card.number Suit.blue 1)]
        (some Suit.blue))) = [Card.number Suit.blue 3] := by
  have hE : t.cards_played.isEmpty = false := by
    simpa using hne
  refine ⟨?_, ?_, by decide, by decide⟩
  · rcases hF : (hand.filter (fun c =>
        decide (c.card_type = CardType.number ∧
          c.suit = some led))).isEmpty with _ | _
    · have hF2 : ∃ x ∈ hand, x.card_type = CardType.number ∧
          x.suit = some led := filter_isEmpty_false_exists hand led hF
      have hF3 : ¬(∀ a ∈ hand, a.card_type = CardType.number →
          ¬ a.suit = some led) := by
        push_neg
        exact hF2
      simp [get_legal_cards, hE, hled, hreal, hF, hF3]
    · have hFq : ∀ a ∈ hand, a.card_type = CardType.number →
          ¬ a.suit = some led := filter_isEmpty_true_forall hand led hF
      simp [get_legal_cards, hE, hled, hreal, hF]
  · intro hh
    rcases hF : (hand.filter (fun c =>
        decide (c.card_type = CardType.number ∧
          c.suit = some led))).isEmpty with _ | _
    · have hF2 : ∃ x ∈ hand, x.card_type = CardType.number ∧
          x.suit = some led := filter_isEmpty_false_exists hand led hF
      have hF3 : ¬(∀ a ∈ hand, a.card_type = CardType.number →
          ¬ a.suit = some led) := by
        push_neg
        exact hF2
      have hleg : get_legal_cards hand (some t) = hand.filter (fun c =>
          decide (c.card_type = CardType.number ∧
            c.suit = some led)) := by
        simp [get_legal_cards, hE, hled, hreal, hF3]
      rw [hleg]
      refine ⟨?_, fun c hcm => (List.mem_filter.mp hcm).1⟩
      intro hnil
      rw [hnil] at hF
      simp at hF
    · have hFq : ∀ a ∈ hand, a.card_type = CardType.number →
          ¬ a.suit = some led := filter_isEmpty_true_forall hand led hF
      have hleg : get_legal_cards hand (some t) = hand := by
        simp [get_legal_cards, hE, hled, hreal]
        intro x hx hxt hxs
        exact absurd hxs (hFq x hx hxt)
      rw [hleg]
      exact ⟨hh, fun c hcm => hcm⟩

/-- C7 witness: the follow-suit rule applied at the worked example. -/
theorem get_legal_cards_follow_witness :
    get_legal_cards [Card.number Suit.red 5, Card.number Suit.blue 3,
        Card.escape]
      (some (Trick.mk 1 1 none [(9, Card.number Suit.red 1)]
        (some Suit.red))) = [Card.number Suit.red 5] :=
  (get_legal_cards_follow [Card.number Suit.red 5] (Trick.mk 1 1 none
      [(9, Card.number Suit.red 1)] (some Suit.red)) Suit.red
    (by decide) rfl (by decide)).2.2.1

/-- C7 counterexample: under a Blue lead the hand
`[Red-5, Blue-3, Escape]` does not yield the whole hand (the claim's
example asserts it does): it yields `{Blue-3}`. -/
theorem get_legal_cards_follow_cex :
    get_legal_cards [Card.number Suit.red 5, Card.number Suit.blue 3,
        Card.escape]
      (some (Trick.mk 1 1 none [(9, Card.number Suit.blue 1)]
        (some Suit.blue)))
      ≠ [Card.number Suit.red 5, Card.number Suit.blue 3, Card.escape] := by
  decide

/-! ### C9: `collect_bids` -/

/-- C9 (amended): `collect_bids` fails exactly when some player returns a
bid outside `[0, round_num]`; the resulting bids map always extends the
initial one with the bids of the longest valid prefix of the turn order,
so on failure the earlier players' bids remain recorded (the mutation is
partial, not rolled back). -/
theorem collect_bids_spec (bidOf : Nat → Int) (r : Nat) (players : List Nat)
    (bids0 : List (Nat × Int)) :
    ((collect_bids bidOf r players bids0).2.isSome = true ↔
      ∃ p ∈ players, bidOf p < 0 ∨ bidOf p > (r : Int)) ∧
    (collect_bids bidOf r players bids0).1 = bids0 ++
      (players.takeWhile (fun p =>
        decide (¬(bidOf p < 0 ∨ bidOf p > (r : Int))))).map
        (fun p => (p, bidOf p)) := by
  induction players generalizing bids0 with
  | nil => simp [collect_bids]
  | cons p rest ih =>
    unfold collect_bids
    by_cases hp : bidOf p < 0 ∨ bidOf p > (r : Int)
    · simp only [hp, if_true]
      constructor
      · constructor
        · intro _
          exact ⟨p, List.mem_cons_self p rest, hp⟩
        · intro _
          rfl
      · simp [List.takeWhile_cons, hp]
        omega
    · simp only [hp, if_false]
      refine ⟨?_, ?_⟩
      · rw [(ih (bids0 ++ [(p, bidOf p)])).1]
        constructor
        · rintro ⟨q, hq, hvq⟩
          exact ⟨q, List.mem_cons_of_mem _ hq, hvq⟩
        · rintro ⟨q, hq, hvq⟩
          rcases List.mem_cons.mp hq with h | h
          · subst h
            exact absurd hvq hp
          · exact ⟨q, h, hvq⟩
      · rw [(ih (bids0 ++ [(p, bidOf p)])).2]
        have hp2 : 0 ≤ bidOf p ∧ bidOf p ≤ (r : Int) := by
          constructor <;> omega
        simp [List.takeWhile_cons, hp2]

/-- C9 counterexample: with two players where the second bids -1, the call
fails but the first player's bid is already recorded: the bids map is not
left unchanged. -/
theorem collect_bids_cex :
    (collect_bids (fun p => if p = 0 then 1 else -1) 3 [0, 1] []).2.isSome
      = true ∧
    (collect_bids (fun p => if p = 0 then 1 else -1) 3 [0, 1] []).1
      = [(0, 1)] ∧
    [((0 : Nat), (1 : Int))] ≠ ([] : List (Nat × Int)) := by
  decide

/-! ### C5: the Skull King capture bonus -/

/-- The per-trick bonus computed by the code agrees with the bonus rule as
the spec words it. -/
theorem trickBonus_eq_spec (t : Trick) (p : Nat) :
    trickBonus t p = specBonusOfTrick t p := by
  unfold trickBonus specBonusOfTrick
  cases hw : t.determine_winner with
  | none => simp
  | some w =>
    cases hsk : skullKingPlayed t with
    | false => simp
    | true =>
      cases hwc : winnerCard t w with
      | none => by_cases hp : p = w <;> simp [hp, hwc]
      | some c =>
        cases c <;> by_cases hp : p = w <;> simp [hp, hwc, Card.card_type]

/-- Folding bonus accumulation equals summing per-trick bonuses. -/
theorem foldl_add_trickBonus (p : Nat) (l : List Trick) (a : Int) :
    l.foldl (fun acc t => acc + trickBonus t p) a
      = a + (l.map (fun t => trickBonus t p)).sum := by
  induction l generalizing a with
  | nil => simp
  | cons t l ih =>
    rw [List.foldl_cons, ih]
    simp [List.map_cons, List.sum_cons]
    ring

/-- C5: `check_special_bonuses` awards, per completed trick, exactly the
spec's bonus: +100 to the winner when a Skull King was played in the trick
and the winner's card is a Mermaid, +50 when it is a Pirate, and nothing
otherwise — in particular nothing when no Skull King was played, and
nothing when the Skull King itself won (its card is neither a Mermaid nor
a Pirate). -/
theorem check_special_bonuses_spec (tricks : List Trick) (p : Nat) :
    check_special_bonuses tricks p
      = (tricks.map (fun t => specBonusOfTrick t p)).sum ∧
    (∀ t, skullKingPlayed t = false → specBonusOfTrick t p = 0) ∧
    (∀ t w, t.determine_winner = some w →
      winnerCard t w = some Card.skullKing → specBonusOfTrick t p = 0) := by
  refine ⟨?_, ?_, ?_⟩
  · unfold check_special_bonuses
    rw [foldl_add_trickBonus]
    simp [trickBonus_eq_spec]
  · intro t hsk
    unfold specBonusOfTrick
    cases hw : t.determine_winner <;> simp [hsk]
  · intro t w hw hwc
    unfold specBonusOfTrick
    simp [hw, hwc]

/-- C5 witness: a trick the Skull King itself wins contributes no bonus. -/
theorem check_special_bonuses_witness :
    specBonusOfTrick (Trick.mk 2 1 none
      [(0, Card.skullKing), (1, Card.escape)] (some Suit.special)) 0 = 0 :=
  (check_special_bonuses_spec [] 0).2.2
    (Trick.mk 2 1 none [(0, Card.skullKing), (1, Card.escape)]
      (some Suit.special)) 0 (by decide) (by decide)

/-- C10 witness: a concrete two-Escape trick is won by the first player. -/
theorem determine_winner_escapes_witness :
    (Trick.mk 2 1 none [(3, Card.escape), (4, Card.escape)]
      (some Suit.special)).determine_winner = some 3 :=
  (determine_winner_escapes_and_empty _).1 3 Card.escape [(4, Card.escape)]
    rfl (by decide)

/-! ### C8: conservation of cards across a round -/

/-- The standard deck has exactly 63 cards. -/
theorem standardDeck_length : standardDeck.length = 63 := by
  rfl

/-- Dealing hands splits the deck: the dealt hands and the remaining deck
together hold exactly the original deck's cards. -/
theorem dealHands_length (n : Nat) :
    ∀ (k : Nat) (deck : List Card) (hs : List (List Card))
      (rest : List Card),
    dealHands deck n k = some (hs, rest) →
    (hs.map List.length).sum + rest.length = deck.length := by
  intro k
  induction k with
  | zero =>
    intro deck hs rest h
    simp only [dealHands, Option.some.injEq, Prod.mk.injEq] at h
    obtain ⟨h1, h2⟩ := h
    subst h1
    subst h2
    simp
  | succ k ih =>
    intro deck hs rest h
    simp only [dealHands] at h
    split at h
    · cases h
    next h1 d1 hdeal =>
      split at h
      · cases h
      next hs2 d2 hrec =>
        simp only [Option.some.injEq, Prod.mk.injEq] at h
        obtain ⟨h3, h4⟩ := h
        subst h3
        subst h4
        have hIH := ih _ _ _ hrec
        unfold deal at hdeal
        by_cases hlen : n > deck.length
        · rw [if_pos hlen] at hdeal
          cases hdeal
        · rw [if_neg hlen] at hdeal
          simp only [Option.some.injEq, Prod.mk.injEq] at hdeal
          obtain ⟨hd1, hd2⟩ := hdeal
          subst hd1
          subst hd2
          simp only [List.map_cons, List.sum_cons, List.length_take,
            List.length_drop] at hIH ⊢
          omega

/-- A freshly started round holds exactly the dealt deck's cards. -/
theorem start_round_totalCards (np rn : Nat) (deck : List Card)
    (s : RoundState) (h : start_round np rn deck = some s) :
    s.totalCards = deck.length := by
  unfold start_round at h
  split at h
  · cases h
  next hs rest hdh =>
    simp only [Option.some.injEq] at h
    subst h
    have := dealHands_length rn np deck hs rest hdh
    simp only [RoundState.totalCards, currentTrickCount, List.map_nil,
      List.sum_nil]
    omega

/-- Starting a trick does not change the card count. -/
theorem start_trick_totalCards (s : RoundState)
    (h : s.current_trick = none) :
    s.start_trick.totalCards = s.totalCards := by
  simp [RoundState.start_trick, RoundState.totalCards, currentTrickCount, h]

/-- Playing into a trick appends exactly one card. -/
theorem trick_play_card_length (t : Trick) (p : Nat) (c : Card) :
    (t.play_card p c).cards_played.length = t.cards_played.length + 1 := by
  unfold Trick.play_card
  by_cases he : t.cards_played.isEmpty
  · rw [if_pos he]
    have hnil : t.cards_played = [] := List.isEmpty_iff.mp he
    simp [hnil]
  · rw [if_neg he]
    simp

/-- `get_legal_cards` returns either the whole hand or a filtered hand. -/
theorem get_legal_cards_eq_or (hand : List Card) (ct : Option Trick) :
    get_legal_cards hand ct = hand ∨
    ∃ led, get_legal_cards hand ct = hand.filter (fun c =>
      decide (c.card_type = CardType.number ∧ c.suit = some led)) := by
  unfold get_legal_cards
  split
  · exact Or.inl rfl
  · split
    · exact Or.inl rfl
    · split
      · rename_i led hled
        split
        · split
          · exact Or.inl rfl
          · exact Or.inr ⟨led, rfl⟩
        · exact Or.inl rfl
      · exact Or.inl rfl

/-- Every legal card is in the hand. -/
theorem get_legal_cards_subset (hand : List Card) (ct : Option Trick)
    (c : Card) (hc : c ∈ get_legal_cards hand ct) : c ∈ hand := by
  rcases get_legal_cards_eq_or hand ct with h | ⟨led, h⟩
  · rw [h] at hc
    exact hc
  · rw [h] at hc
    exact (List.mem_filter.mp hc).1

/-- Replacing the hand at an occupied index trades its length for the new
hand's length in the total. -/
theorem sum_map_length_set (l : List (List Card)) :
    ∀ (i : Nat) (x hand : List Card), l.get? i = some hand →
    ((l.set i x).map List.length).sum + hand.length
      = (l.map List.length).sum + x.length := by
  induction l with
  | nil =>
    intro i x hand h
    simp [List.get?] at h
  | cons a l ih =>
    intro i x hand h
    cases i with
    | zero =>
      simp only [List.get?, Option.some.injEq] at h
      subst h
      simp only [List.set_cons_zero, List.map_cons, List.sum_cons]
      omega
    | succ i =>
      simp only [List.get?] at h
      simp only [List.set_cons_succ, List.map_cons, List.sum_cons]
      have := ih i x hand h
      omega

/-- A successful `play_card` conserves the total card count: the played
card moves from the hand into the current trick (or the archived trick on
completion). -/
theorem play_card_totalCards (s : RoundState) (p : Nat) (c : Card)
    (s2 : RoundState) (h : s.play_card p c = some s2) :
    s2.totalCards = s.totalCards := by
  unfold RoundState.play_card at h
  split at h
  · cases h
  next t hct =>
    split at h
    · cases h
    next hand hh =>
      split at h
      case isTrue hleg =>
        rw [hct] at hleg
        have hcm : c ∈ hand := get_legal_cards_subset hand (some t) c hleg
        have herase : (hand.erase c).length = hand.length - 1 :=
          List.length_erase_of_mem hcm
        have hpos : 1 ≤ hand.length :=
          List.length_pos.mpr (List.ne_nil_of_mem hcm)
        have hset := sum_map_length_set s.hands p (hand.erase c) hand hh
        have hlen := trick_play_card_length t p c
        split at h
        case isTrue hcomp =>
          simp only [Option.some.injEq] at h
          subst h
          simp only [RoundState.totalCards, currentTrickCount, hct,
            List.map_append, List.sum_append, List.map_cons,
            List.sum_cons, List.map_nil, List.sum_nil]
          omega
        case isFalse hcomp =>
          simp only [Option.some.injEq] at h
          subst h
          simp only [RoundState.totalCards, currentTrickCount, hct]
          omega
      case isFalse hleg => cases h

/-- C8: in every round state reachable from `start_round` on a shuffled
standard deck through trick starts and successful `play_card` steps, the
cards in all hands, completed tricks, the current trick and the remaining
deck total exactly 63. -/
theorem round_conservation (s : RoundState) (h : Reachable s) :
    s.totalCards = 63 := by
  induction h with
  | start np rn deck s1 hperm hsr =>
    rw [start_round_totalCards np rn deck s1 hsr, hperm.length_eq,
      standardDeck_length]
  | trick s1 hr hnone ih =>
    rw [start_trick_totalCards s1 hnone]
    exact ih
  | play s1 p c s2 hr hpc ih =>
    rw [play_card_totalCards s1 p c s2 hpc]
    exact ih

/-- C8 witness: a concrete freshly dealt two-player round of round number 1
holds 63 cards. -/
theorem round_conservation_witness :
    ((start_round 2 1 standardDeck).getD default).totalCards = 63 :=
  round_conservation _ (Reachable.start 2 1 standardDeck _
    (List.Perm.refl _) (by rfl))

/-! ### C3: order-(in)dependence of trick resolution -/

/-- A non-candidate never beats a candidate (no trump). -/
theorem noncand_not_beats (led : Suit) (d c : Card)
    (hd : isCandidate led d = false) (hc : isCandidate led c = true) :
    d.beats c (some led) none = false := by
  cases d <;> cases c <;>
    simp_all [isCandidate, Card.beats, Card.card_type, specialHierarchy,
      numberBeats, numberCompareLed]

/-- On well-formed candidates, `beats` is exactly the strength order. -/
theorem cand_beats_iff (led : Suit) (c d : Card)
    (hc : isCandidate led c = true) (hd : isCandidate led d = true)
    (hwc : c.wellFormed = true) (hwd : d.wellFormed = true) :
    (d.beats c (some led) none = true ↔ strength c < strength d) := by
  cases c <;> cases d <;>
    simp_all [isCandidate, strength, Card.beats, Card.card_type,
      specialHierarchy, numberBeats, numberCompareLed, Card.wellFormed] <;>
    omega

/-- Strength is injective on well-formed candidates. -/
theorem strength_inj (led : Suit) (c d : Card)
    (hc : isCandidate led c = true) (hd : isCandidate led d = true)
    (hwc : c.wellFormed = true) (hwd : d.wellFormed = true)
    (hs : strength c = strength d) : c = d := by
  cases c <;> cases d <;>
    simp_all [isCandidate, strength, Card.wellFormed] <;> omega

/-- The winner fold started at a well-formed candidate returns a play from
the list that is a well-formed candidate of maximal strength among the
candidates played. -/
theorem foldl_trickStep_max (led : Suit) (plays : List (Nat × Card)) :
    ∀ (w : Nat × Card), isCandidate led w.2 = true →
    w.2.wellFormed = true →
    (∀ pc ∈ plays, pc.2.wellFormed = true) →
    (plays.foldl (trickStep (some led) none) w ∈ w :: plays ∧
     isCandidate led (plays.foldl (trickStep (some led) none) w).2 = true ∧
     (plays.foldl (trickStep (some led) none) w).2.wellFormed = true ∧
     ∀ x ∈ w :: plays, isCandidate led x.2 = true →
       strength x.2 ≤ strength (plays.foldl (trickStep (some led) none) w).2)
    := by
  induction plays with
  | nil =>
    intro w hw hwf _
    refine ⟨List.mem_cons_self _ _, hw, hwf, ?_⟩
    intro x hx _
    rcases List.mem_cons.mp hx with h | h
    · subst h
      exact le_refl _
    · cases h
  | cons a l ih =>
    intro w hw hwf hall
    rw [List.foldl_cons]
    have hwa : a.2.wellFormed = true := hall a (List.mem_cons_self _ _)
    have hrest : ∀ pc ∈ l, pc.2.wellFormed = true :=
      fun pc hpc => hall pc (List.mem_cons_of_mem _ hpc)
    cases hca : isCandidate led a.2 with
    | false =>
      have hstep : trickStep (some led) none w a = w := by
        simp [trickStep, noncand_not_beats led a.2 w.2 hca hw]
      rw [hstep]
      obtain ⟨hmem, hcand, hwf2, hmax⟩ := ih w hw hwf hrest
      refine ⟨?_, hcand, hwf2, ?_⟩
      · rcases List.mem_cons.mp hmem with h | h
        · rw [h]
          exact List.mem_cons_self _ _
        · exact List.mem_cons_of_mem _ (List.mem_cons_of_mem _ h)
      · intro x hx hcx
        rcases List.mem_cons.mp hx with h | h
        · exact hmax x (by rw [h]; exact List.mem_cons_self _ _) hcx
        · rcases List.mem_cons.mp h with h2 | h2
          · rw [h2, hca] at hcx
            cases hcx
          · exact hmax x (List.mem_cons_of_mem _ h2) hcx
    | true =>
      by_cases hb : a.2.beats w.2 (some led) none = true
      · have hstep : trickStep (some led) none w a = a := by
          simp [trickStep, hb]
        rw [hstep]
        obtain ⟨hmem, hcand, hwf2, hmax⟩ := ih a hca hwa hrest
        have hlt : strength w.2 < strength a.2 :=
          (cand_beats_iff led w.2 a.2 hw hca hwf hwa).mp hb
        have hamax : strength a.2 ≤
            strength (l.foldl (trickStep (some led) none) a).2 :=
          hmax a (List.mem_cons_self _ _) hca
        refine ⟨List.mem_cons_of_mem _ hmem, hcand, hwf2, ?_⟩
        intro x hx hcx
        rcases List.mem_cons.mp hx with h | h
        · have : strength x.2 = strength w.2 := by rw [h]
          omega
        · rcases List.mem_cons.mp h with h2 | h2
          · have : strength x.2 = strength a.2 := by rw [h2]
            omega
          · exact hmax x (List.mem_cons_of_mem _ h2) hcx
      · have hstep : trickStep (some led) none w a = w := by
          simp [trickStep, hb]
        rw [hstep]
        obtain ⟨hmem, hcand, hwf2, hmax⟩ := ih w hw hwf hrest
        have hge : ¬ strength w.2 < strength a.2 :=
          fun hl => hb ((cand_beats_iff led w.2 a.2 hw hca hwf hwa).mpr hl)
        have hwmax : strength w.2 ≤
            strength (l.foldl (trickStep (some led) none) w).2 :=
          hmax w (List.mem_cons_self _ _) hw
        refine ⟨?_, hcand, hwf2, ?_⟩
        · rcases List.mem_cons.mp hmem with h | h
          · rw [h]
            exact List.mem_cons_self _ _
          · exact List.mem_cons_of_mem _ (List.mem_cons_of_mem _ h)
        · intro x hx hcx
          rcases List.mem_cons.mp hx with h | h
          · exact hmax x (by rw [h]; exact List.mem_cons_self _ _) hcx
          · rcases List.mem_cons.mp h with h2 | h2
            · have : strength x.2 = strength a.2 := by rw [h2]
              omega
            · exact hmax x (List.mem_cons_of_mem _ h2) hcx

/-- In a play list whose candidate cards are pairwise distinct, a play is
determined by its card (among candidate-card plays). -/
theorem mem_unique_by_card (l : List (Nat × Card))
    (P : Card → Bool) (hnd : ((l.map Prod.snd).filter P).Nodup)
    (x y : Nat × Card) (hx : x ∈ l) (hy : y ∈ l)
    (hP : P x.2 = true) (heq : x.2 = y.2) : x = y := by
  by_contra hne
  obtain ⟨l1, l2, rfl⟩ := List.append_of_mem hx
  have hy2 : y ∈ l1 ∨ y ∈ l2 := by
    rcases List.mem_append.mp hy with h | h
    · exact Or.inl h
    · rcases List.mem_cons.mp h with h2 | h2
      · exact absurd h2.symm hne
      · exact Or.inr h2
  have hcount : 2 ≤ ((l1 ++ x :: l2).map Prod.snd).count x.2 := by
    rw [List.map_append, List.count_append, List.map_cons,
      List.count_cons_self]
    rcases hy2 with h | h
    · have hmem : x.2 ∈ l1.map Prod.snd := by
        rw [heq]
        exact List.mem_map_of_mem _ h
      have := List.count_pos_iff.mpr hmem
      omega
    · have hmem : x.2 ∈ l2.map Prod.snd := by
        rw [heq]
        exact List.mem_map_of_mem _ h
      have := List.count_pos_iff.mpr hmem
      omega
  have hc2 : 2 ≤ (((l1 ++ x :: l2).map Prod.snd).filter P).count x.2 := by
    rw [List.count_filter hP]
    exact hcount
  have := List.nodup_iff_count_le_one.mp hnd x.2
  omega

/-- Folding `Trick.play_card` over further plays of a non-empty trick
appends them and keeps the led and trump suits. -/
theorem foldl_play_card_spec (xs : List (Nat × Card)) :
    ∀ t : Trick, t.cards_played ≠ [] →
    ((xs.foldl (fun t pc => t.play_card pc.1 pc.2) t).cards_played
        = t.cards_played ++ xs ∧
     (xs.foldl (fun t pc => t.play_card pc.1 pc.2) t).led_suit
        = t.led_suit ∧
     (xs.foldl (fun t pc => t.play_card pc.1 pc.2) t).trump_suit
        = t.trump_suit) := by
  induction xs with
  | nil =>
    intro t ht
    simp
  | cons y ys ih =>
    intro t ht
    rw [List.foldl_cons]
    have hne : t.cards_played.isEmpty = false := by
      simpa using ht
    have hpc : t.play_card y.1 y.2 =
        { t with cards_played := t.cards_played ++ [y] } := by
      unfold Trick.play_card
      rw [if_neg (by simp [hne])]
    rw [hpc]
    obtain ⟨h1, h2, h3⟩ := ih { t with cards_played := t.cards_played ++ [y] }
      (by simp)
    refine ⟨?_, h2, h3⟩
    rw [h1]
    simp

/-- A trick built from a non-empty play list holds exactly those plays,
with the led suit derived from the first card. -/
theorem mkTrick_cons (rn tn : Nat) (trump : Option Suit)
    (x : Nat × Card) (xs : List (Nat × Card)) :
    (mkTrick rn tn trump (x :: xs)).cards_played = x :: xs ∧
    (mkTrick rn tn trump (x :: xs)).led_suit =
      (if x.2.card_type = CardType.number then x.2.suit
       else some Suit.special) ∧
    (mkTrick rn tn trump (x :: xs)).trump_suit = trump := by
  unfold mkTrick
  rw [List.foldl_cons]
  have hfirst : Trick.play_card ⟨rn, tn, trump, [], none⟩ x.1 x.2 =
      ⟨rn, tn, trump, [x],
        if x.2.card_type = CardType.number then x.2.suit
        else some Suit.special⟩ := rfl
  rw [hfirst]
  obtain ⟨h1, h2, h3⟩ := foldl_play_card_spec xs
    ⟨rn, tn, trump, [x],
      if x.2.card_type = CardType.number then x.2.suit
      else some Suit.special⟩ (by simp)
  refine ⟨?_, h2, h3⟩
  rw [h1]
  rfl

/-- C3 (amended): for a trick whose first play is a Number card, the
winner is unchanged under every permutation of the remaining plays,
provided all played cards are well-formed and no candidate card (led-suit
Number, Skull King, Mermaid, Pirate) is played twice.  With a non-Number
first play (Special led suit) the winner can depend on the order of the
later plays, as the counterexample shows. -/
theorem determine_winner_perm_invariant (p0 : Nat) (s0 : Suit) (v0 : Nat)
    (rest rest2 : List (Nat × Card)) (hperm : rest.Perm rest2)
    (hwf : ∀ pc ∈ (p0, Card.number s0 v0) :: rest, pc.2.wellFormed = true)
    (hnd : (candCards s0 ((p0, Card.number s0 v0) :: rest)).Nodup) :
    (mkTrick 1 1 none ((p0, Card.number s0 v0) :: rest)).determine_winner
      = (mkTrick 1 1 none
          ((p0, Card.number s0 v0) :: rest2)).determine_winner := by
  obtain ⟨hc1, hl1, ht1⟩ := mkTrick_cons 1 1 none (p0, Card.number s0 v0) rest
  obtain ⟨hc2, hl2, ht2⟩ :=
    mkTrick_cons 1 1 none (p0, Card.number s0 v0) rest2
  have hled : (if ((p0, Card.number s0 v0)).2.card_type = CardType.number
      then ((p0, Card.number s0 v0)).2.suit else some Suit.special)
      = some s0 := rfl
  unfold Trick.determine_winner
  simp only [hc1, hc2, hl1, hl2, ht1, ht2, hled]
  have hpermc : ((p0, Card.number s0 v0) :: rest).Perm
      ((p0, Card.number s0 v0) :: rest2) := hperm.cons _
  have hwfx : ((p0, Card.number s0 v0)).2.wellFormed = true :=
    hwf _ (List.mem_cons_self _ _)
  have hcx : isCandidate s0 ((p0, Card.number s0 v0)).2 = true := by
    simp [isCandidate]
  have hwfr : ∀ pc ∈ rest, pc.2.wellFormed = true :=
    fun pc hpc => hwf pc (List.mem_cons_of_mem _ hpc)
  have hwfr2 : ∀ pc ∈ rest2, pc.2.wellFormed = true :=
    fun pc hpc => hwfr pc (hperm.mem_iff.mpr hpc)
  obtain ⟨m1, c1, w1, x1⟩ :=
    foldl_trickStep_max s0 rest (p0, Card.number s0 v0) hcx hwfx hwfr
  obtain ⟨m2, c2, w2, x2⟩ :=
    foldl_trickStep_max s0 rest2 (p0, Card.number s0 v0) hcx hwfx hwfr2
  have hm12 : rest.foldl (trickStep (some s0) none)
      (p0, Card.number s0 v0) ∈ (p0, Card.number s0 v0) :: rest2 :=
    hpermc.mem_iff.mp m1
  have hm21 : rest2.foldl (trickStep (some s0) none)
      (p0, Card.number s0 v0) ∈ (p0, Card.number s0 v0) :: rest :=
    hpermc.mem_iff.mpr m2
  have h12 := x2 _ hm12 c1
  have h21 := x1 _ hm21 c2
  have hcards := strength_inj s0 _ _ c1 c2 w1 w2 (le_antisymm h12 h21)
  have hr : rest.foldl (trickStep (some s0) none) (p0, Card.number s0 v0)
      = rest2.foldl (trickStep (some s0) none) (p0, Card.number s0 v0) := by
    refine mem_unique_by_card ((p0, Card.number s0 v0) :: rest)
      (fun c => isCandidate s0 c) ?_ _ _ m1 hm21 c1 hcards
    unfold candCards at hnd
    exact hnd
  rw [hr]

/-- C3 witness: permuting the two later plays of a Number-led trick leaves
the winner unchanged. -/
theorem determine_winner_perm_witness :
    (mkTrick 1 1 none [(0, Card.number Suit.red 5),
        (1, Card.number Suit.red 3), (2, Card.pirate)]).determine_winner
      = (mkTrick 1 1 none [(0, Card.number Suit.red 5),
        (2, Card.pirate), (1, Card.number Suit.red 3)]).determine_winner :=
  determine_winner_perm_invariant 0 Suit.red 5
    [(1, Card.number Suit.red 3), (2, Card.pirate)]
    [(2, Card.pirate), (1, Card.number Suit.red 3)]
    (by decide) (by decide) (by decide)

/-- C3 counterexample: with an Escape led first (led suit Special), two
off-suit Number cards in the remaining plays make the winner depend on
their order, so the claim as stated is false. -/
theorem determine_winner_perm_cex :
    ([((1 : Nat), Card.number Suit.red 5),
        (2, Card.number Suit.blue 7)]).Perm
      [(2, Card.number Suit.blue 7), (1, Card.number Suit.red 5)] ∧
    (mkTrick 1 1 none [(0, Card.escape), (1, Card.number Suit.red 5),
      (2, Card.number Suit.blue 7)]).determine_winner = some 1 ∧
    (mkTrick 1 1 none [(0, Card.escape), (2, Card.number Suit.blue 7),
      (1, Card.number Suit.red 5)]).determine_winner = some 2 ∧
    some (1 : Nat) ≠ some 2 := by
  decide

end SkullKing
